import Mathlib

/-!
Shallow embedding of `src/banking.py` (simple-banking-system): a bank-account
record, a ledger of accounts keyed by id, and a CSV snapshot codec.

Modelling conventions:
* Python `Decimal` values (exact base-10 arithmetic) are modelled as `ℚ`;
  all additions, subtractions and comparisons the code performs on them are
  exact, so `ℚ` is a faithful carrier.
* Python `float` inputs are modelled by their exact rational values.
* `f"{amount:.2f}"` (rounding to 2 decimal places, ties to even) is modelled
  by `roundHalfEven`.
* Exceptions are modelled by an error type: `ValueError "amount must be
  positive"` is `invalidAmount`, `ValueError "insufficient funds"` is
  `insufficientFunds`, `KeyError` on an account lookup is `accountNotFound`,
  and any exception while parsing a snapshot row (`decimal.InvalidOperation`,
  `TypeError` on a missing field) is `corruptSnapshot` — the error kinds of
  spec §7.
* The Python `dict` of accounts is an insertion-ordered association list;
  assignment to an existing key replaces in place, a new key is appended,
  exactly like `dict.__setitem__`.
* `uuid.uuid4()` is an external random source: the generated id is passed to
  `create_account` as an explicit argument.
* A CSV file is modelled as the list of its rows, each row the list of its
  fields (the `csv` module round-trips fields exactly, so the byte-level
  quoting layer is abstracted away); a missing file is `none`.
-/

namespace Banking

/-- The error kinds of spec §7, mapped from the Python exceptions. -/
inductive BankError where
  | invalidAmount
  | insufficientFunds
  | accountNotFound
  | corruptSnapshot
deriving DecidableEq, Repr

/-- `BankAccount` dataclass: id, holder name, and exact decimal balance. -/
structure BankAccount where
  id : String
  name : String
  balance : ℚ
deriving DecidableEq, Repr

/-- `BankAccount.deposit`: rejects non-positive amounts, else adds to the
balance.  The pair is (raised error, account state after the call); the code
raises before mutating, so on error the account is returned unchanged. -/
def BankAccount.deposit (a : BankAccount) (amount : ℚ) :
    Option BankError × BankAccount :=
  if amount ≤ 0 then (some .invalidAmount, a)
  else (none, { a with balance := a.balance + amount })

/-- `BankAccount.withdraw`: rejects non-positive amounts, then overdrafts
(`amount > self.balance`), else subtracts from the balance. -/
def BankAccount.withdraw (a : BankAccount) (amount : ℚ) :
    Option BankError × BankAccount :=
  if amount ≤ 0 then (some .invalidAmount, a)
  else if a.balance < amount then (some .insufficientFunds, a)
  else (none, { a with balance := a.balance - amount })

/-- Round a rational to the nearest integer, ties to the even integer —
the rounding `f"{x:.2f}"` applies to the scaled value. -/
def roundHalfEven (q : ℚ) : ℤ :=
  let f : ℤ := ⌊q⌋
  let r : ℚ := q - f
  if r < 1/2 then f
  else if 1/2 < r then f + 1
  else if 2 ∣ f then f else f + 1

/-- `to_decimal`: convert an input amount to the 2-decimal fixed-point value
`Decimal(f"{amount:.2f}")`. -/
def to_decimal (amount : ℚ) : ℚ :=
  (roundHalfEven (100 * amount) : ℚ) / 100

/-- The account store: a Python `dict` as an insertion-ordered association
list from id to account. -/
abbrev AccountMap := List (String × BankAccount)

/-- `self._accounts[k]` as a total lookup (`none` models `KeyError`). -/
def dictGet (d : AccountMap) (k : String) : Option BankAccount :=
  (d.find? (fun p => p.1 = k)).map Prod.snd

/-- `self._accounts[k] = v`: replace in place when the key exists, append
otherwise — Python `dict` assignment order semantics. -/
def dictSet (d : AccountMap) (k : String) (v : BankAccount) : AccountMap :=
  if d.any (fun p => decide (p.1 = k)) then
    d.map (fun p => if p.1 = k then (k, v) else p)
  else d ++ [(k, v)]

/-- `BankingSystem`: the ledger owning the accounts. -/
structure BankingSystem where
  accounts : AccountMap
deriving DecidableEq, Repr

/-- `BankingSystem()`: the empty ledger. -/
def BankingSystem.empty : BankingSystem := ⟨[]⟩

/-- `BankingSystem.create_account`: reject a negative raw opening balance
(the code checks `opening_balance < 0` on the float before conversion), else
insert a fresh account under the generated id `accId` (the `uuid4()` value,
supplied externally) with the converted opening balance and return the id.
The pair is (returned id or raised error, ledger state after the call). -/
def BankingSystem.create_account (sys : BankingSystem) (name : String)
    (opening_balance : ℚ) (accId : String) :
    Except BankError String × BankingSystem :=
  if opening_balance < 0 then (.error .invalidAmount, sys)
  else (.ok accId,
    ⟨dictSet sys.accounts accId ⟨accId, name, to_decimal opening_balance⟩⟩)

/-- `BankingSystem.deposit`: `self._accounts[acc_id].deposit(to_decimal(amount))`.
The subscript lookup runs first (`KeyError` if absent), the account method
then validates the converted amount. -/
def BankingSystem.deposit (sys : BankingSystem) (accId : String)
    (amount : ℚ) : Option BankError × BankingSystem :=
  match dictGet sys.accounts accId with
  | none => (some .accountNotFound, sys)
  | some a =>
    match a.deposit (to_decimal amount) with
    | (some e, _) => (some e, sys)
    | (none, a') => (none, ⟨dictSet sys.accounts accId a'⟩)

/-- `BankingSystem.withdraw`: `self._accounts[acc_id].withdraw(to_decimal(amount))`. -/
def BankingSystem.withdraw (sys : BankingSystem) (accId : String)
    (amount : ℚ) : Option BankError × BankingSystem :=
  match dictGet sys.accounts accId with
  | none => (some .accountNotFound, sys)
  | some a =>
    match a.withdraw (to_decimal amount) with
    | (some e, _) => (some e, sys)
    | (none, a') => (none, ⟨dictSet sys.accounts accId a'⟩)

/-- `BankingSystem.transfer`: convert once, withdraw from the source, then
deposit into the destination.  Note the destination lookup happens only
after the source withdrawal has mutated the source account, so a missing
destination id raises `KeyError` with the withdrawal already applied — the
returned state in that branch keeps the mutated source. -/
def BankingSystem.transfer (sys : BankingSystem) (srcId dstId : String)
    (amount : ℚ) : Option BankError × BankingSystem :=
  let amt := to_decimal amount
  match dictGet sys.accounts srcId with
  | none => (some .accountNotFound, sys)
  | some s =>
    match s.withdraw amt with
    | (some e, _) => (some e, sys)
    | (none, s') =>
      let sys' : BankingSystem := ⟨dictSet sys.accounts srcId s'⟩
      match dictGet sys'.accounts dstId with
      | none => (some .accountNotFound, sys')
      | some d =>
        match d.deposit amt with
        | (some e, _) => (some e, sys')
        | (none, d') => (none, ⟨dictSet sys'.accounts dstId d'⟩)

/-- `BankingSystem.get_balance`: `KeyError` if absent, else the exact
current balance (a `Decimal` is returned by value; `ℚ` has no aliasing). -/
def BankingSystem.get_balance (sys : BankingSystem) (accId : String) :
    Except BankError ℚ :=
  match dictGet sys.accounts accId with
  | none => .error .accountNotFound
  | some a => .ok a.balance

/-- Numeric value of a decimal digit character. -/
def digitVal (c : Char) : ℕ := c.toNat - 48

/-- Value of a most-significant-first digit string. -/
def natVal (cs : List Char) : ℕ := cs.foldl (fun a c => 10 * a + digitVal c) 0

/-- Decimal rendering of a natural number, as `str` renders the integer
part of a `Decimal` (no sign, no leading zeros, `0` for zero). -/
def renderNat (n : ℕ) : List Char :=
  if n = 0 then ['0'] else (Nat.digits 10 n).reverse.map Nat.digitChar

/-- `str` of a scale-2 `Decimal` holding `n` hundredths: optional minus,
integer part, a dot, exactly two fractional digits. -/
def renderCentsChars (n : ℤ) : List Char :=
  let m := n.natAbs
  let core := renderNat (m / 100) ++
    '.' :: [Nat.digitChar (m % 100 / 10), Nat.digitChar (m % 100 % 10)]
  if n < 0 then '-' :: core else core

/-- `str(acc.balance)` for a balance `b`.  Every balance the system writes
to a snapshot is a scale-2 `Decimal`, i.e. an exact multiple of `1/100`
(the `GoodBalance` invariant below); on those this rendering is exact. -/
def strOfBalance (b : ℚ) : String := ⟨renderCentsChars ⌊100 * b⌋⟩

/-- The header row `save_csv` writes: `id,name,balance`. -/
def stdHeader : List String := ["id", "name", "balance"]

/-- `BankingSystem.save_csv`: one header row, then one row per account in
store order with the account's id, name, and rendered balance.  The CSV
byte layer is abstracted to the list of field lists (the `csv` module
round-trips fields exactly). -/
def BankingSystem.save_csv (sys : BankingSystem) : List (List String) :=
  stdHeader :: sys.accounts.map (fun p => [p.2.id, p.2.name, strOfBalance p.2.balance])

/-- Strip a leading sign, as the `Decimal` string grammar does. -/
def splitSign (cs : List Char) : Bool × List Char :=
  match cs with
  | [] => (false, [])
  | c :: rest =>
    if c = '-' then (true, rest)
    else if c = '+' then (false, rest)
    else (false, c :: rest)

def applySign (neg : Bool) (q : ℚ) : ℚ := if neg then -q else q

/-- `Decimal(bs)` on a finite plain numeral: optional sign, then digits
with an optional fraction (`"5"`, `"5."`, `".5"`, `"-1.23"`); anything
else is `decimal.InvalidOperation`, i.e. `none`.  The exotic inputs
`Decimal` would also accept (exponent forms, `Infinity`/`NaN`,
surrounding whitespace) are omitted: no snapshot written by `save_csv`
contains them, and omitting them only narrows the accepted rows. -/
def parseDecChars (cs : List Char) : Option ℚ :=
  let s := splitSign cs
  let intPart := s.2.takeWhile Char.isDigit
  let rest := s.2.dropWhile Char.isDigit
  match rest with
  | [] => if intPart.isEmpty then none else some (applySign s.1 (natVal intPart))
  | c :: rest2 =>
    if c = '.' then
      let fracPart := rest2.takeWhile Char.isDigit
      let rest3 := rest2.dropWhile Char.isDigit
      if rest3.isEmpty then
        if intPart.isEmpty && fracPart.isEmpty then none
        else some (applySign s.1
          ((natVal intPart : ℚ) + (natVal fracPart : ℚ) / 10 ^ fracPart.length))
      else none
    else none

def parseDecimal (s : String) : Option ℚ := parseDecChars s.data

/-- Index of the last occurrence of `k` in `fieldnames` — the occurrence
whose value survives in `dict(zip(fieldnames, row))` after `DictReader`'s
`restval` fill-in. -/
def lastIdxOf : List String → String → Option ℕ
  | [], _ => none
  | x :: xs, k =>
    match lastIdxOf xs k with
    | some i => some (i + 1)
    | none => if x = k then some 0 else none

/-- `row[k]` on a `csv.DictReader` row: `KeyError` when `k` is not a field
name at all; otherwise the row value at the field's position, or `none`
(Python `None`, the `restval`) when the row is too short. -/
def rowField (fieldnames row : List String) (k : String) :
    Except BankError (Option String) :=
  match lastIdxOf fieldnames k with
  | none => .error .corruptSnapshot
  | some i => .ok row[i]?

/-- Build one account from a `DictReader` row, as
`BankAccount(id=row["id"], name=row["name"], balance=Decimal(row["balance"]))`.
A missing balance value is `Decimal(None)`, a `TypeError`; an unparsable one
is `decimal.InvalidOperation` — both hard failures (`corruptSnapshot`).
A `none` id or name can only arise under a non-standard header (never from
`save_csv` output, whose rows always carry all three fields); Python would
store the `None` sentinel there, modelled as a hard failure as well. -/
def parseRow (fieldnames row : List String) :
    Except BankError (String × String × ℚ) :=
  match rowField fieldnames row "id" with
  | .error e => .error e
  | .ok idv =>
    match rowField fieldnames row "name" with
    | .error e => .error e
    | .ok namev =>
      match rowField fieldnames row "balance" with
      | .error e => .error e
      | .ok balv =>
        match balv with
        | none => .error .corruptSnapshot
        | some bs =>
          match parseDecimal bs with
          | none => .error .corruptSnapshot
          | some b =>
            match idv, namev with
            | some i, some n => .ok (i, n, b)
            | _, _ => .error .corruptSnapshot

/-- The `for row in csv.DictReader(f)` loop body: skip blank rows (as
`DictReader` does), parse each remaining row and assign it into the store;
the first exception aborts the whole load. -/
def loadRows (fieldnames : List String) :
    List (List String) → AccountMap → Except BankError AccountMap
  | [], acc => .ok acc
  | row :: rest, acc =>
    if row.isEmpty then loadRows fieldnames rest acc
    else
      match parseRow fieldnames row with
      | .error e => .error e
      | .ok (i, n, b) => loadRows fieldnames rest (dictSet acc i ⟨i, n, b⟩)

/-- `BankingSystem.load_csv`: a missing file (`none`) and an empty file both
give the empty system; otherwise the first row is the `DictReader` header
and the remaining rows are loaded in order. -/
def BankingSystem.load_csv (src : Option (List (List String))) :
    Except BankError BankingSystem :=
  match src with
  | none => .ok ⟨[]⟩
  | some [] => .ok ⟨[]⟩
  | some (header :: body) => (loadRows header body []).map (fun acc => ⟨acc⟩)

/-- A balance as the system maintains it: a scale-2 `Decimal`, i.e. a
non-negative exact multiple of `1/100`. -/
def GoodBalance (b : ℚ) : Prop := ∃ m : ℤ, 0 ≤ m ∧ b = (m : ℚ) / 100

/-- The store invariant: distinct keys, each account recorded under its own
id, every balance a non-negative scale-2 decimal. -/
def Inv (sys : BankingSystem) : Prop :=
  (sys.accounts.map Prod.fst).Nodup ∧
  ∀ p ∈ sys.accounts, p.2.id = p.1 ∧ GoodBalance p.2.balance

/-- Ledgers reachable from the empty system by any sequence of operations,
each either succeeding or failing (`.2` is the post-state in both cases). -/
inductive Reachable : BankingSystem → Prop where
  | empty : Reachable BankingSystem.empty
  | create (sys : BankingSystem) (name : String) (ob : ℚ) (accId : String) :
      Reachable sys → Reachable (sys.create_account name ob accId).2
  | dep (sys : BankingSystem) (accId : String) (amount : ℚ) :
      Reachable sys → Reachable (sys.deposit accId amount).2
  | wd (sys : BankingSystem) (accId : String) (amount : ℚ) :
      Reachable sys → Reachable (sys.withdraw accId amount).2
  | xfer (sys : BankingSystem) (srcId dstId : String) (amount : ℚ) :
      Reachable sys → Reachable (sys.transfer srcId dstId amount).2

/-- A malformed record under the standard header: a field is missing
(the row is shorter than the three header fields, so the balance value is
Python `None`), or the balance field does not parse as a decimal. -/
def malformedRow (row : List String) : Prop :=
  row.length < 3 ∨ ∃ bs, row[2]? = some bs ∧ parseDecimal bs = none

/-! ### Store lemmas -/

theorem any_key_iff (d : AccountMap) (k : String) :
    (d.any fun p => decide (p.1 = k)) = true ↔ k ∈ d.map Prod.fst := by
  simp [List.any_eq_true, List.mem_map]

theorem find?_map_replace_self (d : AccountMap) (k : String) (v : BankAccount) :
    (d.map (fun p => if p.1 = k then (k, v) else p)).find?
        (fun p => decide (p.1 = k)) =
      (d.find? (fun p => decide (p.1 = k))).map (fun _ => (k, v)) := by
  induction d with
  | nil => rfl
  | cons p t ih =>
    by_cases h : p.1 = k
    · simp [List.find?, h]
    · simp [List.find?, h, ih]

theorem find?_map_replace_ne (d : AccountMap) (k k' : String) (v : BankAccount)
    (hne : k' ≠ k) :
    (d.map (fun p => if p.1 = k then (k, v) else p)).find?
        (fun p => decide (p.1 = k')) =
      d.find? (fun p => decide (p.1 = k')) := by
  induction d with
  | nil => rfl
  | cons p t ih =>
    by_cases h : p.1 = k
    · have h2 : ¬(p.1 = k') := by rw [h]; exact fun hc => hne hc.symm
      simp [List.find?, h, h2, hne.symm, ih]
    · by_cases h3 : p.1 = k' <;> simp [List.find?, h, h3, hne, ih]

theorem dictGet_dictSet_self (d : AccountMap) (k : String) (v : BankAccount) :
    dictGet (dictSet d k v) k = some v := by
  unfold dictGet dictSet
  by_cases hc : (d.any fun p => decide (p.1 = k)) = true
  · rw [if_pos hc, find?_map_replace_self]
    have hs : (d.find? (fun p => decide (p.1 = k))).isSome := by
      rw [List.find?_isSome]
      simpa [List.any_eq_true] using hc
    obtain ⟨q, hq⟩ := Option.isSome_iff_exists.mp hs
    simp [hq]
  · rw [if_neg hc, List.find?_append]
    have hnone : d.find? (fun p => decide (p.1 = k)) = none := by
      rw [List.find?_eq_none]
      intro x hx hpx
      exact hc (List.any_eq_true.mpr ⟨x, hx, hpx⟩)
    simp [hnone, List.find?]

theorem dictGet_dictSet_ne (d : AccountMap) (k k' : String) (v : BankAccount)
    (hne : k' ≠ k) : dictGet (dictSet d k v) k' = dictGet d k' := by
  unfold dictGet dictSet
  by_cases hc : (d.any fun p => decide (p.1 = k)) = true
  · rw [if_pos hc, find?_map_replace_ne d k k' v hne]
  · rw [if_neg hc, List.find?_append]
    simp [List.find?, hne.symm]

theorem map_fst_dictSet_mem (d : AccountMap) (k : String) (v : BankAccount)
    (h : k ∈ d.map Prod.fst) :
    (dictSet d k v).map Prod.fst = d.map Prod.fst := by
  unfold dictSet
  rw [if_pos ((any_key_iff d k).mpr h), List.map_map]
  apply List.map_congr_left
  intro p _
  by_cases h2 : p.1 = k <;> simp [h2]

theorem dictSet_eq_append (d : AccountMap) (k : String) (v : BankAccount)
    (h : k ∉ d.map Prod.fst) : dictSet d k v = d ++ [(k, v)] := by
  unfold dictSet
  rw [if_neg]
  intro hc
  exact h ((any_key_iff d k).mp hc)

theorem dictGet_mem (d : AccountMap) (k : String) (a : BankAccount)
    (h : dictGet d k = some a) : (k, a) ∈ d := by
  unfold dictGet at h
  cases hfind : d.find? (fun p => decide (p.1 = k)) with
  | none => simp [hfind] at h
  | some q =>
    simp only [hfind, Option.map_some'] at h
    have hq : q.1 = k := by simpa using List.find?_some hfind
    have hmem := List.mem_of_find?_eq_some hfind
    have hqa : q = (k, a) := by
      cases q
      simp only [Prod.mk.injEq]
      exact ⟨hq, Option.some.inj h⟩
    rwa [hqa] at hmem

theorem key_mem_of_dictGet (d : AccountMap) (k : String) (a : BankAccount)
    (h : dictGet d k = some a) : k ∈ d.map Prod.fst := by
  have := dictGet_mem d k a h
  exact List.mem_map.mpr ⟨(k, a), this, rfl⟩

theorem nodup_dictSet (d : AccountMap) (k : String) (v : BankAccount)
    (h : (d.map Prod.fst).Nodup) : ((dictSet d k v).map Prod.fst).Nodup := by
  by_cases hm : k ∈ d.map Prod.fst
  · rw [map_fst_dictSet_mem d k v hm]; exact h
  · rw [dictSet_eq_append d k v hm, List.map_append]
    simp [List.nodup_append, h, hm]

theorem mem_dictSet (d : AccountMap) (k : String) (v : BankAccount)
    (q : String × BankAccount) (h : q ∈ dictSet d k v) :
    q = (k, v) ∨ q ∈ d := by
  unfold dictSet at h
  by_cases hc : (d.any fun p => decide (p.1 = k)) = true
  · rw [if_pos hc] at h
    obtain ⟨p, hp, hq⟩ := List.mem_map.mp h
    by_cases h2 : p.1 = k
    · left; rw [← hq]; simp [h2]
    · right; rw [← hq]; simp [h2]; exact hp
  · rw [if_neg hc] at h
    rcases List.mem_append.mp h with h1 | h1
    · right; exact h1
    · left; simpa using h1

/-! ### Rounding lemmas -/

theorem roundHalfEven_nonneg (q : ℚ) (h : 0 ≤ q) : 0 ≤ roundHalfEven q := by
  unfold roundHalfEven
  have hf : (0 : ℤ) ≤ ⌊q⌋ := Int.floor_nonneg.mpr h
  dsimp only
  split_ifs <;> omega

theorem goodBalance_to_decimal (amount : ℚ) (h : 0 ≤ amount) :
    GoodBalance (to_decimal amount) :=
  ⟨roundHalfEven (100 * amount),
    roundHalfEven_nonneg _ (by positivity), rfl⟩

theorem goodBalance_add_to_decimal (b x : ℚ) (hb : GoodBalance b)
    (hpos : 0 < to_decimal x) : GoodBalance (b + to_decimal x) := by
  obtain ⟨m, hm, rfl⟩ := hb
  refine ⟨m + roundHalfEven (100 * x), ?_, by push_cast [to_decimal]; ring⟩
  unfold to_decimal at hpos
  rcases div_pos_iff.mp hpos with ⟨h2, _⟩ | ⟨_, hc⟩
  · have h3 : (0 : ℤ) < roundHalfEven (100 * x) := by exact_mod_cast h2
    omega
  · norm_num at hc

theorem goodBalance_sub_to_decimal (b x : ℚ) (hb : GoodBalance b)
    (hle : to_decimal x ≤ b) : GoodBalance (b - to_decimal x) := by
  obtain ⟨m, hm, rfl⟩ := hb
  refine ⟨m - roundHalfEven (100 * x), ?_, by push_cast [to_decimal]; ring⟩
  have h1 : (roundHalfEven (100 * x) : ℚ) / 100 ≤ (m : ℚ) / 100 := hle
  have h2 : (roundHalfEven (100 * x) : ℚ) ≤ (m : ℚ) := by
    have := (div_le_div_iff_of_pos_right (c := (100 : ℚ)) (by norm_num)).mp h1
    exact this
  have h3 : roundHalfEven (100 * x) ≤ m := by exact_mod_cast h2
  omega

theorem goodBalance_nonneg (b : ℚ) (h : GoodBalance b) : 0 ≤ b := by
  obtain ⟨m, hm, rfl⟩ := h
  positivity

/-! ### Invariant preservation -/

theorem inv_empty : Inv BankingSystem.empty := by
  constructor
  · exact List.nodup_nil
  · intro p hp
    simp [BankingSystem.empty] at hp

theorem inv_dictSet (d : AccountMap) (k : String) (v : BankAccount)
    (h : Inv ⟨d⟩) (hv : v.id = k) (hgb : GoodBalance v.balance) :
    Inv ⟨dictSet d k v⟩ := by
  obtain ⟨hn, hall⟩ := h
  refine ⟨nodup_dictSet d k v hn, ?_⟩
  intro p hp
  rcases mem_dictSet d k v p hp with rfl | hmem
  · exact ⟨hv, hgb⟩
  · exact hall p hmem

theorem inv_account_of_get (sys : BankingSystem) (k : String) (a : BankAccount)
    (h : Inv sys) (hget : dictGet sys.accounts k = some a) :
    a.id = k ∧ GoodBalance a.balance :=
  h.2 (k, a) (dictGet_mem _ _ _ hget)

theorem inv_create (sys : BankingSystem) (name : String) (ob : ℚ)
    (accId : String) (h : Inv sys) :
    Inv (sys.create_account name ob accId).2 := by
  unfold BankingSystem.create_account
  by_cases hc : ob < 0
  · simpa [hc] using h
  · simp only [if_neg hc]
    exact inv_dictSet sys.accounts accId _ (by cases sys; exact h) rfl
      (goodBalance_to_decimal ob (not_lt.mp hc))

theorem inv_deposit (sys : BankingSystem) (accId : String) (amount : ℚ)
    (h : Inv sys) : Inv (sys.deposit accId amount).2 := by
  unfold BankingSystem.deposit
  cases hget : dictGet sys.accounts accId with
  | none => simpa [hget] using h
  | some a =>
    obtain ⟨hid, hgb⟩ := inv_account_of_get sys accId a h hget
    by_cases hc : to_decimal amount ≤ 0
    · simpa [hget, BankAccount.deposit, hc] using h
    · simp only [hget, BankAccount.deposit, if_neg hc]
      exact inv_dictSet sys.accounts accId _ (by cases sys; exact h) hid
        (goodBalance_add_to_decimal a.balance amount hgb (not_le.mp hc))

theorem inv_withdraw (sys : BankingSystem) (accId : String) (amount : ℚ)
    (h : Inv sys) : Inv (sys.withdraw accId amount).2 := by
  unfold BankingSystem.withdraw
  cases hget : dictGet sys.accounts accId with
  | none => simpa [hget] using h
  | some a =>
    obtain ⟨hid, hgb⟩ := inv_account_of_get sys accId a h hget
    by_cases hc : to_decimal amount ≤ 0
    · simpa [hget, BankAccount.withdraw, hc] using h
    · by_cases hf : a.balance < to_decimal amount
      · simpa [hget, BankAccount.withdraw, hc, hf] using h
      · simp only [hget, BankAccount.withdraw, if_neg hc, if_neg hf]
        exact inv_dictSet sys.accounts accId _ (by cases sys; exact h) hid
          (goodBalance_sub_to_decimal a.balance amount hgb (not_lt.mp hf))

theorem inv_transfer (sys : BankingSystem) (srcId dstId : String) (amount : ℚ)
    (h : Inv sys) : Inv (sys.transfer srcId dstId amount).2 := by
  unfold BankingSystem.transfer
  cases hget : dictGet sys.accounts srcId with
  | none => simpa [hget] using h
  | some s =>
    obtain ⟨hid, hgb⟩ := inv_account_of_get sys srcId s h hget
    by_cases hc : to_decimal amount ≤ 0
    · simpa [hget, BankAccount.withdraw, hc] using h
    · by_cases hf : s.balance < to_decimal amount
      · simpa [hget, BankAccount.withdraw, hc, hf] using h
      · have hinv' : Inv ⟨dictSet sys.accounts srcId
            { s with balance := s.balance - to_decimal amount }⟩ :=
          inv_dictSet sys.accounts srcId _ (by cases sys; exact h) hid
            (goodBalance_sub_to_decimal s.balance amount hgb (not_lt.mp hf))
        simp only [hget, BankAccount.withdraw, if_neg hc, if_neg hf]
        cases hget2 : dictGet (dictSet sys.accounts srcId
            { s with balance := s.balance - to_decimal amount }) dstId with
        | none => simpa [hget2] using hinv'
        | some d =>
          obtain ⟨hid2, hgb2⟩ := inv_account_of_get _ dstId d hinv' hget2
          simp only [hget2, BankAccount.deposit, if_neg hc]
          exact inv_dictSet _ dstId _ hinv' hid2
            (goodBalance_add_to_decimal d.balance amount hgb2 (not_le.mp hc))

theorem reachable_inv (sys : BankingSystem) (h : Reachable sys) : Inv sys := by
  induction h with
  | empty => exact inv_empty
  | create sys name ob accId _ ih => exact inv_create sys name ob accId ih
  | dep sys accId amount _ ih => exact inv_deposit sys accId amount ih
  | wd sys accId amount _ ih => exact inv_withdraw sys accId amount ih
  | xfer sys srcId dstId amount _ ih => exact inv_transfer sys srcId dstId amount ih

/-! ### Concrete conversions -/

theorem to_decimal_five : to_decimal 5 = 5 := by
  unfold to_decimal roundHalfEven
  norm_num

theorem to_decimal_thirty : to_decimal 30 = 30 := by
  unfold to_decimal roundHalfEven
  norm_num

theorem to_decimal_hundred : to_decimal 100 = 100 := by
  unfold to_decimal roundHalfEven
  norm_num

theorem to_decimal_of_250th : to_decimal (1 / 250) = 0 := by
  unfold to_decimal roundHalfEven
  norm_num

theorem to_decimal_of_neg_1000th : to_decimal (-1 / 1000) = 0 := by
  unfold to_decimal roundHalfEven
  norm_num

/-! ### Snapshot codec lemmas -/

theorem digitVal_digitChar (d : ℕ) (h : d < 10) :
    digitVal (Nat.digitChar d) = d := by
  interval_cases d <;> rfl

theorem isDigit_digitChar (d : ℕ) (h : d < 10) :
    (Nat.digitChar d).isDigit = true := by
  interval_cases d <;> rfl

theorem renderNat_ne_nil (n : ℕ) : renderNat n ≠ [] := by
  unfold renderNat
  split
  · simp
  · rename_i h
    intro hc
    rw [List.map_eq_nil_iff, List.reverse_eq_nil_iff] at hc
    exact (Nat.digits_ne_nil_iff_ne_zero.mpr h) hc

theorem mem_renderNat_isDigit (n : ℕ) (c : Char) (h : c ∈ renderNat n) :
    c.isDigit = true := by
  unfold renderNat at h
  split at h
  · simp at h
    subst h
    rfl
  · obtain ⟨d, hd, rfl⟩ := List.mem_map.mp h
    have hd' : d ∈ Nat.digits 10 n := List.mem_reverse.mp hd
    exact isDigit_digitChar d (Nat.digits_lt_base (by norm_num) hd')

theorem natVal_renderNat (n : ℕ) : natVal (renderNat n) = n := by
  unfold renderNat
  split
  · rename_i h
    rw [h]
    rfl
  · unfold natVal
    rw [List.map_reverse, List.foldl_reverse, List.foldr_map]
    have key : ∀ L : List ℕ, (∀ d ∈ L, d < 10) →
        L.foldr (fun d a => 10 * a + digitVal (Nat.digitChar d)) 0 =
          Nat.ofDigits 10 L := by
      intro L
      induction L with
      | nil => intro _; rfl
      | cons d t ih =>
        intro hall
        have h1 := ih (fun x hx => hall x (List.mem_cons_of_mem d hx))
        have h2 := digitVal_digitChar d (hall d (List.mem_cons_self d t))
        simp only [List.foldr_cons, h1, h2]
        have h3 : Nat.ofDigits 10 (d :: t) = d + 10 * Nat.ofDigits 10 t := by
          exact_mod_cast Nat.ofDigits_cons
        rw [h3]
        ring
    rw [key (Nat.digits 10 n)
      (fun d hd => Nat.digits_lt_base (by norm_num) hd)]
    exact_mod_cast Nat.ofDigits_digits 10 n

theorem takeWhile_append_stop (p : Char → Bool) (l1 l2 : List Char) (c : Char)
    (h1 : ∀ x ∈ l1, p x = true) (hc : p c = false) :
    (l1 ++ c :: l2).takeWhile p = l1 ∧ (l1 ++ c :: l2).dropWhile p = c :: l2 := by
  induction l1 with
  | nil => simp [List.takeWhile, List.dropWhile, hc]
  | cons x t ih =>
    have hx : p x = true := h1 x (List.mem_cons_self x t)
    have iht := ih (fun y hy => h1 y (List.mem_cons_of_mem x hy))
    simp [List.takeWhile, List.dropWhile, hx, iht.1, iht.2]

theorem parse_renderCents (m : ℤ) (hm : 0 ≤ m) :
    parseDecChars (renderCentsChars m) = some ((m : ℚ) / 100) := by
  unfold renderCentsChars
  rw [if_neg (not_lt.mpr hm)]
  obtain ⟨c0, t0, hr⟩ : ∃ c0 t0, renderNat (m.natAbs / 100) = c0 :: t0 := by
    cases hrn : renderNat (m.natAbs / 100) with
    | nil => exact absurd hrn (renderNat_ne_nil _)
    | cons c0 t0 => exact ⟨c0, t0, rfl⟩
  have hdigits : ∀ x ∈ renderNat (m.natAbs / 100), x.isDigit = true :=
    fun x hx => mem_renderNat_isDigit _ x hx
  have hc0 : c0.isDigit = true := hdigits c0 (hr ▸ List.mem_cons_self _ _)
  have hc0m : ¬(c0 = '-') := by
    intro hcm
    rw [hcm] at hc0
    exact absurd hc0 (by decide)
  have hc0p : ¬(c0 = '+') := by
    intro hcp
    rw [hcp] at hc0
    exact absurd hc0 (by decide)
  have hd1 : m.natAbs % 100 / 10 < 10 := by omega
  have hd2 : m.natAbs % 100 % 10 < 10 := by omega
  have htd := takeWhile_append_stop Char.isDigit (renderNat (m.natAbs / 100))
    [Nat.digitChar (m.natAbs % 100 / 10), Nat.digitChar (m.natAbs % 100 % 10)]
    '.' hdigits (by decide)
  have hsplit : splitSign (renderNat (m.natAbs / 100) ++
      '.' :: [Nat.digitChar (m.natAbs % 100 / 10),
        Nat.digitChar (m.natAbs % 100 % 10)]) =
      (false, renderNat (m.natAbs / 100) ++
        '.' :: [Nat.digitChar (m.natAbs % 100 / 10),
          Nat.digitChar (m.natAbs % 100 % 10)]) := by
    rw [hr, List.cons_append]
    simp [splitSign, hc0m, hc0p]
  have hfrac : ([Nat.digitChar (m.natAbs % 100 / 10),
      Nat.digitChar (m.natAbs % 100 % 10)]).takeWhile Char.isDigit =
      [Nat.digitChar (m.natAbs % 100 / 10),
        Nat.digitChar (m.natAbs % 100 % 10)] := by
    simp [List.takeWhile, isDigit_digitChar _ hd1, isDigit_digitChar _ hd2]
  have hfrop : ([Nat.digitChar (m.natAbs % 100 / 10),
      Nat.digitChar (m.natAbs % 100 % 10)]).dropWhile Char.isDigit = [] := by
    simp [List.dropWhile, isDigit_digitChar _ hd1, isDigit_digitChar _ hd2]
  have hint : (renderNat (m.natAbs / 100)).isEmpty = false := by
    rw [hr]
    rfl
  unfold parseDecChars
  rw [hsplit]
  simp only [htd.1, htd.2, hfrac, hfrop, hint, List.isEmpty_nil,
    Bool.false_and, if_true, if_false, applySign, if_neg, Bool.false_eq_true,
    ite_false, reduceIte]
  have hnv2 : natVal [Nat.digitChar (m.natAbs % 100 / 10),
      Nat.digitChar (m.natAbs % 100 % 10)] = m.natAbs % 100 := by
    unfold natVal
    simp only [List.foldl_cons, List.foldl_nil,
      digitVal_digitChar _ hd1, digitVal_digitChar _ hd2]
    omega
  rw [natVal_renderNat, hnv2]
  have hcast : ((m.natAbs : ℕ) : ℚ) = (m : ℚ) := by
    rw [Int.cast_natAbs]
    exact_mod_cast abs_of_nonneg hm
  have key : 100 * (m.natAbs / 100) + m.natAbs % 100 = m.natAbs :=
    Nat.div_add_mod m.natAbs 100
  have keyQ : (100 : ℚ) * ((m.natAbs / 100 : ℕ) : ℚ) +
      ((m.natAbs % 100 : ℕ) : ℚ) = ((m.natAbs : ℕ) : ℚ) := by
    exact_mod_cast congrArg (fun z : ℕ => (z : ℚ)) key
  rw [hcast] at keyQ
  have hval : ((m.natAbs / 100 : ℕ) : ℚ) + ((m.natAbs % 100 : ℕ) : ℚ) / 10 ^ 2 =
      (m : ℚ) / 100 := by
    field_simp
    linarith [keyQ]
  have hlen : ([Nat.digitChar (m.natAbs % 100 / 10),
      Nat.digitChar (m.natAbs % 100 % 10)]).length = 2 := rfl
  rw [hlen, hval]

theorem parse_strOfBalance (b : ℚ) (h : GoodBalance b) :
    parseDecimal (strOfBalance b) = some b := by
  obtain ⟨m, hm, rfl⟩ := h
  have hfloor : ⌊(100 : ℚ) * ((m : ℚ) / 100)⌋ = m := by
    rw [show (100 : ℚ) * ((m : ℚ) / 100) = (m : ℚ) by ring]
    exact Int.floor_intCast m
  unfold parseDecimal strOfBalance
  rw [hfloor]
  exact parse_renderCents m hm

theorem rowField_std_id (row : List String) :
    rowField stdHeader row "id" = .ok row[0]? := rfl

theorem rowField_std_name (row : List String) :
    rowField stdHeader row "name" = .ok row[1]? := rfl

theorem rowField_std_balance (row : List String) :
    rowField stdHeader row "balance" = .ok row[2]? := rfl

theorem parseRow_std (i nm bs : String) (b : ℚ)
    (hbs : parseDecimal bs = some b) :
    parseRow stdHeader [i, nm, bs] = .ok (i, nm, b) := by
  unfold parseRow
  rw [rowField_std_id, rowField_std_name, rowField_std_balance]
  simp [hbs]

theorem loadRows_save (l acc : AccountMap)
    (hall : ∀ p ∈ l, p.2.id = p.1 ∧ GoodBalance p.2.balance)
    (hnd : (acc.map Prod.fst ++ l.map Prod.fst).Nodup) :
    loadRows stdHeader
      (l.map (fun p => [p.2.id, p.2.name, strOfBalance p.2.balance])) acc =
      .ok (acc ++ l) := by
  induction l generalizing acc with
  | nil => simp [loadRows]
  | cons p t ih =>
    obtain ⟨k, a⟩ := p
    obtain ⟨hid, hgb⟩ := hall (k, a) (List.mem_cons_self _ _)
    simp only at hid hgb
    have hfresh : k ∉ acc.map Prod.fst := by
      simp only [List.map_cons] at hnd
      rcases List.nodup_append.mp hnd with ⟨_, _, hdisj⟩
      intro hmem
      exact hdisj hmem (List.mem_cons_self _ _)
    simp only [List.map_cons]
    unfold loadRows
    rw [if_neg (by simp)]
    rw [hid, parseRow_std _ _ _ _ (parse_strOfBalance _ hgb)]
    have ha : (⟨k, a.name, a.balance⟩ : BankAccount) = a := by
      cases a
      simp only at hid
      rw [hid]
    dsimp only
    rw [ha, dictSet_eq_append acc k a hfresh]
    have hnd' : ((acc ++ [(k, a)]).map Prod.fst ++ t.map Prod.fst).Nodup := by
      simp only [List.map_append, List.map_cons, List.map_nil] at hnd ⊢
      simpa [List.append_assoc, List.singleton_append] using hnd
    rw [ih (acc ++ [(k, a)])
      (fun q hq => hall q (List.mem_cons_of_mem _ hq)) hnd']
    simp [List.append_assoc]

/-! ### Claim theorems: account and ledger operations -/

/-- C5: `deposit(amount)` fails with `InvalidAmount` exactly when
`amount ≤ 0` and otherwise adds `amount` to the balance; `withdraw(amount)`
fails with `InvalidAmount` exactly when `amount ≤ 0`, with
`InsufficientFunds` exactly when `0 < amount` and `amount > balance`, and
otherwise subtracts `amount`; on every failure the account is unchanged.
The five cases are exhaustive and mutually exclusive. -/
theorem account_deposit_withdraw_spec (a : BankAccount) (amount : ℚ) :
    (amount ≤ 0 → a.deposit amount = (some .invalidAmount, a)) ∧
    (0 < amount →
      a.deposit amount = (none, { a with balance := a.balance + amount })) ∧
    (amount ≤ 0 → a.withdraw amount = (some .invalidAmount, a)) ∧
    (0 < amount → a.balance < amount →
      a.withdraw amount = (some .insufficientFunds, a)) ∧
    (0 < amount → amount ≤ a.balance →
      a.withdraw amount = (none, { a with balance := a.balance - amount })) := by
  refine ⟨fun h => ?_, fun h => ?_, fun h => ?_, fun h hf => ?_, fun h hle => ?_⟩
  · simp [BankAccount.deposit, h]
  · simp [BankAccount.deposit, not_le.mpr h]
  · simp [BankAccount.withdraw, h]
  · simp [BankAccount.withdraw, not_le.mpr h, hf]
  · simp [BankAccount.withdraw, not_le.mpr h, not_lt.mpr hle]

/-- Witness for C5: a concrete deposit of 5 onto a balance of 10. -/
theorem account_deposit_withdraw_spec_witness :
    (0 : ℚ) < 5 ∧ (BankAccount.mk "a" "Alice" 10).deposit 5 =
      (none, BankAccount.mk "a" "Alice" (10 + 5)) :=
  ⟨by norm_num,
    (account_deposit_withdraw_spec (BankAccount.mk "a" "Alice" 10) 5).2.1
      (by norm_num)⟩

/-- C4: ledger `deposit`, `withdraw` and `get_balance` on an absent id fail
with `AccountNotFound` and leave the ledger unchanged; on a present id the
first two delegate to the account operation on the converted amount,
propagating its failure kind unchanged (equal first components), and
`get_balance` returns the exact stored balance. -/
theorem ledger_ops_account_lookup (sys : BankingSystem) (accId : String)
    (amount : ℚ) :
    (dictGet sys.accounts accId = none →
      sys.deposit accId amount = (some .accountNotFound, sys) ∧
      sys.withdraw accId amount = (some .accountNotFound, sys) ∧
      sys.get_balance accId = .error .accountNotFound) ∧
    (∀ a, dictGet sys.accounts accId = some a →
      (sys.deposit accId amount).1 = (a.deposit (to_decimal amount)).1 ∧
      (sys.withdraw accId amount).1 = (a.withdraw (to_decimal amount)).1 ∧
      sys.get_balance accId = .ok a.balance) := by
  constructor
  · intro h
    refine ⟨?_, ?_, ?_⟩ <;>
      simp [BankingSystem.deposit, BankingSystem.withdraw,
        BankingSystem.get_balance, h]
  · intro a hget
    refine ⟨?_, ?_, ?_⟩
    · rcases hda : a.deposit (to_decimal amount) with ⟨e, a'⟩
      cases e <;> simp [BankingSystem.deposit, hget, hda]
    · rcases hwa : a.withdraw (to_decimal amount) with ⟨e, a'⟩
      cases e <;> simp [BankingSystem.withdraw, hget, hwa]
    · simp [BankingSystem.get_balance, hget]

/-- Witness for C4: the absent id `"z"` in the empty ledger. -/
theorem ledger_ops_account_lookup_witness :
    BankingSystem.empty.deposit "z" 5 =
      (some .accountNotFound, BankingSystem.empty) :=
  ((ledger_ops_account_lookup BankingSystem.empty "z" 5).1 rfl).1

/-- C9: the ledger converts the amount to 2-decimal fixed point before the
positivity check, so a strictly positive amount whose conversion is `0.00`
makes `deposit` and `withdraw` on an existing account (and `transfer` from
it) fail with `InvalidAmount`, the ledger left unchanged. -/
theorem converted_zero_amount_rejected (sys : BankingSystem)
    (accId dstId : String) (a : BankAccount) (amount : ℚ)
    (hget : dictGet sys.accounts accId = some a) (_hpos : 0 < amount)
    (hzero : to_decimal amount = 0) :
    sys.deposit accId amount = (some .invalidAmount, sys) ∧
    sys.withdraw accId amount = (some .invalidAmount, sys) ∧
    sys.transfer accId dstId amount = (some .invalidAmount, sys) := by
  refine ⟨?_, ?_, ?_⟩ <;>
    simp [BankingSystem.deposit, BankingSystem.withdraw,
      BankingSystem.transfer, hget, BankAccount.deposit, BankAccount.withdraw,
      hzero]

/-- Witness for C9: amount `1/250` (the float `0.004`) on a one-account
ledger; it is positive yet rounds to `0.00`. -/
theorem converted_zero_amount_rejected_witness :
    (0 : ℚ) < 1 / 250 ∧ to_decimal (1 / 250) = 0 ∧
    (⟨[("a", BankAccount.mk "a" "A" 10)]⟩ : BankingSystem).deposit "a" (1 / 250) =
      (some .invalidAmount, ⟨[("a", BankAccount.mk "a" "A" 10)]⟩) :=
  ⟨by norm_num, to_decimal_of_250th,
    (converted_zero_amount_rejected ⟨[("a", BankAccount.mk "a" "A" 10)]⟩
      "a" "b" (BankAccount.mk "a" "A" 10) (1 / 250) rfl (by norm_num)
      to_decimal_of_250th).1⟩

/-- C10: a successful ledger `deposit` or `withdraw` changes only the
targeted account's balance: the key set is unchanged, every other id maps
to the same account, and the targeted account keeps its id and name. -/
theorem deposit_withdraw_frame (sys sys' : BankingSystem) (accId : String)
    (amount : ℚ)
    (h : sys.deposit accId amount = (none, sys') ∨
      sys.withdraw accId amount = (none, sys')) :
    sys'.accounts.map Prod.fst = sys.accounts.map Prod.fst ∧
    (∀ k, k ≠ accId → dictGet sys'.accounts k = dictGet sys.accounts k) ∧
    (∃ a a', dictGet sys.accounts accId = some a ∧
      dictGet sys'.accounts accId = some a' ∧
      a'.id = a.id ∧ a'.name = a.name) := by
  have hmain : ∃ a, dictGet sys.accounts accId = some a ∧
      ∃ b', sys' = ⟨dictSet sys.accounts accId
        { a with balance := b' }⟩ := by
    rcases h with h | h
    · unfold BankingSystem.deposit at h
      cases hget : dictGet sys.accounts accId with
      | none => simp [hget] at h
      | some a =>
        by_cases hc : to_decimal amount ≤ 0
        · simp [hget, BankAccount.deposit, hc] at h
        · rw [hget] at h
          simp only [BankAccount.deposit, if_neg hc, Prod.mk.injEq, true_and] at h
          exact ⟨a, rfl, a.balance + to_decimal amount, h.symm⟩
    · unfold BankingSystem.withdraw at h
      cases hget : dictGet sys.accounts accId with
      | none => simp [hget] at h
      | some a =>
        by_cases hc : to_decimal amount ≤ 0
        · simp [hget, BankAccount.withdraw, hc] at h
        · by_cases hf : a.balance < to_decimal amount
          · simp [hget, BankAccount.withdraw, hc, hf] at h
          · rw [hget] at h
            simp only [BankAccount.withdraw, if_neg hc, if_neg hf,
              Prod.mk.injEq, true_and] at h
            exact ⟨a, rfl, a.balance - to_decimal amount, h.symm⟩
  obtain ⟨a, hget, b', rfl⟩ := hmain
  refine ⟨?_, ?_, ?_⟩
  · exact map_fst_dictSet_mem _ _ _ (key_mem_of_dictGet _ _ _ hget)
  · intro k hk
    exact dictGet_dictSet_ne _ _ _ _ hk
  · exact ⟨a, { a with balance := b' }, hget, dictGet_dictSet_self _ _ _,
      rfl, rfl⟩

/-- Witness for C10: deposit 5 into `"a"` in a two-account ledger; `"b"`
is untouched and the key list is unchanged. -/
theorem deposit_withdraw_frame_witness :
    ((⟨[("a", BankAccount.mk "a" "A" 10), ("b", BankAccount.mk "b" "B" 20)]⟩ :
        BankingSystem).deposit "a" 5).2.accounts.map Prod.fst =
      [("a", BankAccount.mk "a" "A" 10),
        ("b", BankAccount.mk "b" "B" 20)].map Prod.fst ∧
    dictGet ((⟨[("a", BankAccount.mk "a" "A" 10),
        ("b", BankAccount.mk "b" "B" 20)]⟩ :
          BankingSystem).deposit "a" 5).2.accounts "b" =
      dictGet [("a", BankAccount.mk "a" "A" 10),
        ("b", BankAccount.mk "b" "B" 20)] "b" := by
  have hd : (⟨[("a", BankAccount.mk "a" "A" 10),
      ("b", BankAccount.mk "b" "B" 20)]⟩ : BankingSystem).deposit "a" 5 =
      (none, (⟨[("a", BankAccount.mk "a" "A" 10),
        ("b", BankAccount.mk "b" "B" 20)]⟩ : BankingSystem).deposit "a" 5 |>.2) := by
    have h1 : ((⟨[("a", BankAccount.mk "a" "A" 10),
        ("b", BankAccount.mk "b" "B" 20)]⟩ : BankingSystem).deposit "a" 5).1 =
        none := by
      simp [BankingSystem.deposit, dictGet, List.find?, BankAccount.deposit,
        to_decimal_five]
      norm_num
    exact Prod.ext h1 rfl
  have hframe := deposit_withdraw_frame _ _ "a" 5 (Or.inl hd)
  exact ⟨hframe.1, hframe.2.1 "b" (by decide)⟩

/-- C8: self-transfer is permitted: on success every account of the ledger
(the targeted one included) is exactly as before, and it still fails with
`InsufficientFunds` whenever the converted amount exceeds the pre-transfer
balance. -/
theorem self_transfer_spec (sys : BankingSystem) (accId : String)
    (a : BankAccount) (amount : ℚ)
    (hget : dictGet sys.accounts accId = some a) :
    (∀ sys', sys.transfer accId accId amount = (none, sys') →
      dictGet sys'.accounts accId = some a ∧
      ∀ k, k ≠ accId → dictGet sys'.accounts k = dictGet sys.accounts k) ∧
    (0 ≤ a.balance → a.balance < to_decimal amount →
      sys.transfer accId accId amount = (some .insufficientFunds, sys)) := by
  constructor
  · intro sys' h
    unfold BankingSystem.transfer at h
    by_cases hc : to_decimal amount ≤ 0
    · simp [hget, BankAccount.withdraw, hc] at h
    · by_cases hf : a.balance < to_decimal amount
      · simp [hget, BankAccount.withdraw, hc, hf] at h
      · rw [hget] at h
        simp only [BankAccount.withdraw, if_neg hc, if_neg hf] at h
        rw [dictGet_dictSet_self] at h
        simp only [BankAccount.deposit, if_neg hc, Prod.mk.injEq,
          true_and] at h
        subst h
        have ha : ({ a with balance :=
            a.balance - to_decimal amount + to_decimal amount } : BankAccount) = a := by
          cases a
          simp only [BankAccount.mk.injEq, and_true, true_and]
          ring
        constructor
        · rw [dictGet_dictSet_self, ha]
        · intro k hk
          rw [dictGet_dictSet_ne _ _ _ _ hk, dictGet_dictSet_ne _ _ _ _ hk]
  · intro hb hlt
    have hpos : ¬ to_decimal amount ≤ 0 :=
      not_le.mpr (lt_of_le_of_lt hb hlt)
    simp [BankingSystem.transfer, hget, BankAccount.withdraw, hpos, hlt]

/-- Witness for C8: a self-transfer of 30 on a balance of 100 succeeds and
the account reads back unchanged. -/
theorem self_transfer_spec_witness :
    dictGet ((⟨[("a", BankAccount.mk "a" "A" 100)]⟩ :
        BankingSystem).transfer "a" "a" 30).2.accounts "a" =
      some (BankAccount.mk "a" "A" 100) := by
  refine (((self_transfer_spec ⟨[("a", BankAccount.mk "a" "A" 100)]⟩ "a"
    (BankAccount.mk "a" "A" 100) 30 rfl).1) _ ?_).1
  have h1 : ((⟨[("a", BankAccount.mk "a" "A" 100)]⟩ :
      BankingSystem).transfer "a" "a" 30).1 = none := by
    simp [BankingSystem.transfer, dictGet, dictSet, List.find?, List.any,
      BankAccount.withdraw, BankAccount.deposit, to_decimal_thirty]
    norm_num
  exact Prod.ext h1 rfl

/-- C6 counterexample: at raw opening balance `-1/1000` (the float
`-0.001`), `create_account` fails with `InvalidAmount` although the
fixed-point conversion of the opening balance is `0.00`, not negative —
so the failure condition is not "negative after conversion". -/
theorem create_account_negative_raw_cex :
    (BankingSystem.empty.create_account "Alice" (-1 / 1000) "acc-1").1 =
      .error .invalidAmount ∧
    ¬ to_decimal (-1 / 1000) < 0 := by
  constructor
  · have hc : (-1 / 1000 : ℚ) < 0 := by norm_num
    simp [BankingSystem.create_account, hc]
  · rw [to_decimal_of_neg_1000th]
    norm_num

/-- C6 (amended): `create_account` fails with `InvalidAmount` exactly when
the raw opening balance is negative — the check precedes the fixed-point
conversion — and then the ledger is unchanged; otherwise it inserts a new
account under the generated id with the given name and the converted
opening balance, and returns that id. -/
theorem create_account_spec_amended (sys : BankingSystem) (name : String)
    (ob : ℚ) (accId : String) :
    (ob < 0 → sys.create_account name ob accId = (.error .invalidAmount, sys)) ∧
    (0 ≤ ob → sys.create_account name ob accId = (.ok accId,
      ⟨dictSet sys.accounts accId (BankAccount.mk accId name (to_decimal ob))⟩)) := by
  constructor
  · intro h
    simp [BankingSystem.create_account, h]
  · intro h
    simp [BankingSystem.create_account, not_lt.mpr h]

/-- Witness for C6: the spec scenario — opening balance `-100` fails with
`InvalidAmount` and the ledger is unchanged. -/
theorem create_account_spec_amended_witness :
    BankingSystem.empty.create_account "Alice" (-100) "x" =
      (.error .invalidAmount, BankingSystem.empty) :=
  (create_account_spec_amended BankingSystem.empty "Alice" (-100) "x").1
    (by norm_num)

/-- C2: starting from the empty ledger, any sequence of operations — each
succeeding or failing — leaves every account with a non-negative balance. -/
theorem reachable_balance_nonneg (sys : BankingSystem) (h : Reachable sys) :
    ∀ p ∈ sys.accounts, 0 ≤ p.2.balance :=
  fun p hp => goodBalance_nonneg _ ((reachable_inv sys h).2 p hp).2

/-- Witness for C2: the ledger after one `create_account("Alice", 100)`. -/
theorem reachable_balance_nonneg_witness :
    0 ≤ (BankAccount.mk "w1" "Alice" (to_decimal 100)).balance := by
  have hr : Reachable (BankingSystem.empty.create_account "Alice" 100 "w1").2 :=
    Reachable.create _ _ _ _ Reachable.empty
  have hc : (BankingSystem.empty.create_account "Alice" 100 "w1").2 =
      ⟨[("w1", BankAccount.mk "w1" "Alice" (to_decimal 100))]⟩ := by
    simp [BankingSystem.create_account, BankingSystem.empty, dictSet,
      (show ¬((100 : ℚ) < 0) by norm_num)]
  rw [hc] at hr
  exact reachable_balance_nonneg _ hr
    ("w1", BankAccount.mk "w1" "Alice" (to_decimal 100)) (by simp)

/-- C1 (refuted by the code): with one account `"a"` holding `100.00` and
no account `"b"`, `transfer("a", "b", 30)` raises `AccountNotFound` only
after the withdrawal has mutated the source: the post-state holds `"a"` at
`70.00` while no deposit happened anywhere — money left the source alone,
and the absent-id check did not precede mutation. -/
theorem transfer_missing_dst_partial_mutation :
    (⟨[("a", BankAccount.mk "a" "Alice" 100)]⟩ : BankingSystem).transfer
        "a" "b" 30 =
      (some .accountNotFound, ⟨[("a", BankAccount.mk "a" "Alice" 70)]⟩) ∧
    (70 : ℚ) ≠ 100 := by
  constructor
  · simp [BankingSystem.transfer, dictGet, dictSet, BankAccount.withdraw,
      to_decimal_thirty, List.find?, List.any]
    norm_num
  · norm_num

/-! ### Claim theorems: snapshot codec -/

theorem load_csv_cons (header : List String) (body : List (List String)) :
    BankingSystem.load_csv (some (header :: body)) =
      (loadRows header body []).map (fun acc => ⟨acc⟩) := rfl

theorem rowField_error_kind (fieldnames row : List String) (k : String)
    (e : BankError) (h : rowField fieldnames row k = .error e) :
    e = .corruptSnapshot := by
  unfold rowField at h
  split at h <;> simp_all

theorem parseRow_error_kind (fieldnames row : List String) (e : BankError)
    (h : parseRow fieldnames row = .error e) : e = .corruptSnapshot := by
  unfold parseRow at h
  repeat' split at h
  all_goals simp_all
  all_goals
    rename_i heq
  all_goals
    exact rowField_error_kind _ _ _ _ heq

theorem malformed_parseRow (row : List String) (hmal : malformedRow row) :
    parseRow stdHeader row = .error .corruptSnapshot := by
  rcases hmal with hlen | ⟨bs, hbs, hparse⟩
  · have h2 : row[2]? = none := List.getElem?_eq_none (by omega)
    unfold parseRow
    simp only [rowField_std_id, rowField_std_name, rowField_std_balance, h2]
  · unfold parseRow
    simp only [rowField_std_id, rowField_std_name, rowField_std_balance,
      hbs, hparse]

theorem loadRows_malformed (body : List (List String)) (r : List String)
    (acc : AccountMap) (hr : r ∈ body) (hne : r ≠ [])
    (hmal : malformedRow r) :
    loadRows stdHeader body acc = .error .corruptSnapshot := by
  revert hr
  induction body generalizing acc with
  | nil => intro hr; cases hr
  | cons row rest ih =>
    intro hr
    unfold loadRows
    rcases List.mem_cons.mp hr with hEq | hmem
    · subst hEq
      rw [if_neg (by simpa [List.isEmpty_iff] using hne)]
      rw [malformed_parseRow r hmal]
    · by_cases hrow : row.isEmpty
      · rw [if_pos hrow]
        exact ih acc hmem
      · rw [if_neg hrow]
        cases hp : parseRow stdHeader row with
        | error e =>
          have he : e = .corruptSnapshot := parseRow_error_kind _ _ _ hp
          subst he
          rfl
        | ok v =>
          obtain ⟨i, nm, b⟩ := v
          exact ih (dictSet acc i ⟨i, nm, b⟩) hmem

/-- C3: for every reachable ledger, loading the snapshot produced by saving
it returns exactly the same ledger — the same ids, names, and balances. -/
theorem load_save_roundtrip (sys : BankingSystem) (h : Reachable sys) :
    BankingSystem.load_csv (some sys.save_csv) = .ok sys := by
  obtain ⟨hnd, hall⟩ := reachable_inv sys h
  unfold BankingSystem.save_csv
  rw [load_csv_cons]
  rw [loadRows_save sys.accounts [] (fun p hp => hall p hp) (by simpa using hnd)]
  rfl

/-- Witness for C3: the ledger holding Bob's account created with opening
balance 10 survives a save/load round trip unchanged. -/
theorem load_save_roundtrip_witness :
    BankingSystem.load_csv
        (some (⟨[("w2", BankAccount.mk "w2" "Bob" (to_decimal 10))]⟩ :
          BankingSystem).save_csv) =
      .ok ⟨[("w2", BankAccount.mk "w2" "Bob" (to_decimal 10))]⟩ := by
  have hc : (BankingSystem.empty.create_account "Bob" 10 "w2").2 =
      ⟨[("w2", BankAccount.mk "w2" "Bob" (to_decimal 10))]⟩ := by
    simp [BankingSystem.create_account, BankingSystem.empty, dictSet,
      (show ¬((10 : ℚ) < 0) by norm_num)]
  have hr : Reachable
      (⟨[("w2", BankAccount.mk "w2" "Bob" (to_decimal 10))]⟩ : BankingSystem) := by
    rw [← hc]
    exact Reachable.create _ _ _ _ Reachable.empty
  exact load_save_roundtrip _ hr

/-- C7: if the snapshot source exists and some record in its body is
malformed — a missing field or an unparsable balance — then `load_csv`
fails with `CorruptSnapshot`; in particular it never returns any ledger,
partial or otherwise. -/
theorem load_malformed_row_fails (body : List (List String))
    (r : List String) (hr : r ∈ body) (hne : r ≠ [])
    (hmal : malformedRow r) :
    BankingSystem.load_csv (some (stdHeader :: body)) =
      .error .corruptSnapshot ∧
    ∀ sys : BankingSystem,
      BankingSystem.load_csv (some (stdHeader :: body)) ≠ .ok sys := by
  have h := loadRows_malformed body r [] hr hne hmal
  have h1 : BankingSystem.load_csv (some (stdHeader :: body)) =
      .error .corruptSnapshot := by
    rw [load_csv_cons, h]
    rfl
  refine ⟨h1, ?_⟩
  intro sys hc
  rw [h1] at hc
  simp at hc

/-- Witness for C7: a body whose only record has the unparsable balance
`"abc"`. -/
theorem load_malformed_row_fails_witness :
    BankingSystem.load_csv (some (stdHeader :: [["x", "A", "abc"]])) =
      .error .corruptSnapshot :=
  (load_malformed_row_fails [["x", "A", "abc"]] ["x", "A", "abc"]
    (List.mem_singleton.mpr rfl) (by decide)
    (Or.inr ⟨"abc", rfl, by decide⟩)).1

end Banking
